import Mathlib

/-!
Verification of the habit-tracking dashboard in `src/app.py` (SQLite-backed
Streamlit app).  The SQLite tables (`habits`, `habit_logs`, `mood_logs`,
`ai_messages`) are embedded as Lean lists of records held in a `Store`;
each SQL statement of the source is translated to an explicit list
operation.  The float arithmetic of `pct` is modelled bit-exactly by integer
arithmetic reproducing IEEE-754 binary64 rounding, and SQL `TEXT`
comparison (used by `BETWEEN` / `ORDER BY` on ISO date strings) by a
lexicographic order on code points.
-/

/-- Lexicographic comparison of char lists by code point.  Models SQLite's
`TEXT` ordering (byte order, which agrees with code-point order on the ASCII
ISO date strings the app stores). -/
def charListLe : List Char → List Char → Bool
  | [], _ => true
  | _ :: _, [] => false
  | a :: as, b :: bs =>
    if a.toNat < b.toNat then true
    else if b.toNat < a.toNat then false
    else charListLe as bs

/-- String order used by the SQL queries of `src/app.py` on date strings. -/
def strLe (a b : String) : Bool := charListLe a.data b.data

/-- Insertion of an element into a list ordered by `le` (used to model SQL
`ORDER BY`): the element is placed before the first position where `le`
holds. -/
def insertOrd {α : Type} (le : α → α → Bool) (a : α) : List α → List α
  | [] => [a]
  | x :: xs => if le a x then a :: x :: xs else x :: insertOrd le a xs

/-- Insertion sort by `le`; models SQL `ORDER BY`. -/
def sortOrd {α : Type} (le : α → α → Bool) : List α → List α
  | [] => []
  | x :: xs => insertOrd le x (sortOrd le xs)

/-- A row of the `habits` table of `src/app.py` (`init_db`). -/
structure Habit where
  habitId : Int
  name : String
  category : Option String
  targetValue : Int
  targetUnit : String
  isActive : Int
  createdAt : String
deriving DecidableEq

/-- A row of the `habit_logs` table of `src/app.py` (`init_db`);
`UNIQUE(date, habit_id)` holds in every state the database reaches. -/
structure HabitLog where
  logId : Int
  date : String
  habitId : Int
  isDone : Int
  memo : String
  updatedAt : String
deriving DecidableEq

/-- A row of the `mood_logs` table of `src/app.py` (`init_db`); `date` is the
primary key.  The `REAL` column `weather_temp` is modelled as `Option Rat`. -/
structure MoodLog where
  date : String
  moodScore : Int
  moodLabel : Option String
  keywords : Option String
  note : Option String
  weatherDesc : Option String
  weatherTemp : Option Rat
  tarotName : Option String
  tarotOrientation : Option String
  tarotMeaning : Option String
  aiAnalysis : Option String
  aiRecommendation : Option String
  createdAt : String
  updatedAt : String
deriving DecidableEq

/-- A row of the `ai_messages` table of `src/app.py` (`init_db`);
`UNIQUE(date, type)` holds in every state the database reaches.  The column
named `type` in SQL is the field `msgType` here. -/
structure AiMessage where
  msgId : Int
  date : String
  msgType : String
  content : String
  createdAt : String
deriving DecidableEq

/-- The whole SQLite database of `src/app.py`. -/
structure Store where
  habits : List Habit
  habitLogs : List HabitLog
  moodLogs : List MoodLog
  aiMessages : List AiMessage
deriving DecidableEq

/-- The state produced by `init_db` in `src/app.py`: four empty tables. -/
def initStore : Store :=
  { habits := [], habitLogs := [], moodLogs := [], aiMessages := [] }

/-- Next `AUTOINCREMENT` id for a table whose existing ids are `ids` (the app
never deletes rows, so this is exactly SQLite's behaviour). -/
def nextId (ids : List Int) : Int := ids.foldl max 0 + 1

/-- Round-half-to-even of the exact quotient `a / b` for `b > 0` (`/` and `%`
are Euclidean here, i.e. floor division for a positive divisor).  This
integer-level tie-to-even rounding is the primitive used by every stage of
the binary64 model below, and is what Python's `round` performs on the exact
value of a double. -/
def roundHalfEvenDiv (a b : Int) : Int :=
  if 2 * (a % b) < b then a / b
  else if b < 2 * (a % b) then a / b + 1
  else if (a / b) % 2 == 0 then a / b else a / b + 1

/-- `⌊log2⌋` driven by explicit fuel (structural recursion, so concrete
values evaluate); `log2Fuel fuel n = ⌊log2 n⌋` whenever `1 ≤ n ≤ fuel`. -/
def log2Fuel : Nat → Nat → Nat
  | 0, _ => 0
  | fuel+1, n => if 2 ≤ n then log2Fuel fuel (n / 2) + 1 else 0

def natLog2 (n : Nat) : Nat := log2Fuel n n

/-- `⌊log2 (n / d)⌋` for positive naturals `n`, `d`. -/
def ratLog2Floor (n d : Nat) : Int :=
  if d * 2 ^ natLog2 n ≤ n * 2 ^ natLog2 d then
    (natLog2 n : Int) - natLog2 d
  else (natLog2 n : Int) - natLog2 d - 1

/-- IEEE-754 binary64 correctly rounded division of positive integers, as
performed by CPython's int-by-int true division in `numer / denom`: the exact
quotient `n / d` is rounded to 53 significant bits, ties to even.  Returns
the integer significand and the exponent, the value being `m * 2 ^ e`.
The exponent range is unbounded: the model has no overflow (inputs where
CPython raises `OverflowError`) and no gradual underflow (quotients below
`2 ^ (-1022)`, which would need more habit rows than can physically exist). -/
def floatDivSig (n d : Nat) : Int × Int :=
  let k := ratLog2Floor n d
  if k ≤ 52 then
    (roundHalfEvenDiv ((n : Int) * 2 ^ (52 - k).toNat) (d : Int), k - 52)
  else
    (roundHalfEvenDiv (n : Int) ((d : Int) * 2 ^ (k - 52).toNat), k - 52)

/-- Binary64 multiplication of the rounded quotient by the exact constant
`100.0`: the product significand `m * 100 < 2 ^ 60` is rounded back to 53
bits (ties to even), dropping 6 or 7 low bits according to magnitude. -/
def floatTimes100Sig (m : Int) : Int × Int :=
  let mp := m * 100
  if mp < 2 ^ 59 then (roundHalfEvenDiv mp (2 ^ 6), 6)
  else (roundHalfEvenDiv mp (2 ^ 7), 7)

/-- Python's `round` applied to the double `m * 2 ^ e`: round-half-to-even of
its exact value (the double itself is an exact rational). -/
def roundSigToInt (m e : Int) : Int :=
  if 0 ≤ e then m * 2 ^ e.toNat else roundHalfEvenDiv m (2 ^ (-e).toNat)

/-- `int(round((n / d) * 100))` of `src/app.py` for positive `n`, `d`. -/
def pctPos (n d : Nat) : Int :=
  let p1 := floatDivSig n d
  let p2 := floatTimes100Sig p1.1
  roundSigToInt p2.1 (p1.2 + p2.2)

/-- `pct` of `src/app.py`:
```
def pct(numer: int, denom: int) -> int:
    if denom <= 0:
        return 0
    return int(round((numer / denom) * 100))
```
Python evaluates `(numer / denom) * 100` in binary64 floating point, and
`round` rounds half to even on the resulting double.  The model reproduces
this bit for bit through the three stages above: correctly rounded division,
correctly rounded multiplication by 100, then half-to-even rounding of the
double.  For example `pct 23 40 = 57`, because the double nearest `0.575`
times `100` rounds to `57.49999999999999…`, below the tie — while
round-half-to-even of the exact rational `57.5` would give `58`. -/
def pct (numer denom : Int) : Int :=
  if denom ≤ 0 then 0
  else if numer = 0 then 0
  else if 0 < numer then pctPos numer.toNat denom.toNat
  else -pctPos (-numer).toNat denom.toNat

/-- Round-half-to-even applied to the exact rational `(numer/denom) * 100`:
the reading of `pct` in which a true-quotient tie always rounds to the even
integer, kept for comparison against the float-based computation of the
source. -/
def pctExactHalfEven (numer denom : Int) : Int :=
  if denom ≤ 0 then 0 else roundHalfEvenDiv (numer * 100) denom

/-- `fetch_active_habits` of `src/app.py`:
`SELECT * FROM habits WHERE is_active=1 ORDER BY habit_id ASC`. -/
def fetch_active_habits (st : Store) : List Habit :=
  sortOrd (fun a b => decide (a.habitId ≤ b.habitId))
    (st.habits.filter (fun h => h.isActive == 1))

/-- The rows of `SELECT * FROM habit_logs WHERE date=?` in
`fetch_habit_logs_for_date` of `src/app.py`. -/
def fetch_habit_logs_for_date (st : Store) (date : String) : List HabitLog :=
  st.habitLogs.filter (fun r => r.date == date)

/-- Lookup in the dict `{r["habit_id"]: r for r in rows}` built by
`fetch_habit_logs_for_date`: a Python dict comprehension keeps the last row
for a repeated key. -/
def logsDictGet (rows : List HabitLog) (hid : Int) : Option HabitLog :=
  (rows.filter (fun r => r.habitId == hid)).getLast?

/-- The test `r and r["is_done"] == 1` applied to the dict lookup in
`habit_completion_rate` of `src/app.py`. -/
def dictDone (rows : List HabitLog) (hid : Int) : Bool :=
  match logsDictGet rows hid with
  | some r => r.isDone == 1
  | none => false

/-- `habit_completion_rate` of `src/app.py`: iterates over the active habits,
counts those whose log for the date is present and done, and returns
`(done, total, rate)` with `rate = pct(done, total)`. -/
def habit_completion_rate (st : Store) (date : String) : Int × Int × Int :=
  let habits := fetch_active_habits st
  let logs := fetch_habit_logs_for_date st date
  let total : Int := habits.length
  let done : Int :=
    habits.foldl (fun acc h => if dictDone logs h.habitId then acc + 1 else acc) 0
  (done, total, pct done total)

/-- The `UNIQUE(date, habit_id)` key predicate of `habit_logs`. -/
def habitLogKey (date : String) (hid : Int) (r : HabitLog) : Bool :=
  r.date == date && r.habitId == hid

/-- `upsert_habit_log` of `src/app.py`:
`INSERT INTO habit_logs ... ON CONFLICT(date, habit_id) DO UPDATE SET
is_done=excluded.is_done, memo=excluded.memo, updated_at=excluded.updated_at`.
The timestamp `now` (computed by `dt.datetime.now()` in the source) is an
explicit argument.  `updateLogRow` is the `DO UPDATE` action applied to a
conflicting row. -/
def updateLogRow (date : String) (habit_id is_done : Int) (memo now : String)
    (r : HabitLog) : HabitLog :=
  if habitLogKey date habit_id r then
    { r with isDone := is_done, memo := memo, updatedAt := now }
  else r

/-- The row inserted by `upsert_habit_log` when no conflict occurs. -/
def newLogRow (st : Store) (date : String) (habit_id is_done : Int)
    (memo now : String) : HabitLog :=
  { logId := nextId (st.habitLogs.map (fun r => r.logId)), date := date,
    habitId := habit_id, isDone := is_done, memo := memo, updatedAt := now }

def upsert_habit_log (st : Store) (date : String) (habit_id is_done : Int)
    (memo now : String) : Store :=
  if st.habitLogs.any (habitLogKey date habit_id) then
    { st with habitLogs := st.habitLogs.map (updateLogRow date habit_id is_done memo now) }
  else
    { st with habitLogs := st.habitLogs ++ [newLogRow st date habit_id is_done memo now] }

/-- The payload dict passed to `upsert_mood_log` in `src/app.py`; the callers
never put a `created_at` key in it, which `setdefault` then fills with `now`
(`createdAtOpt` models a possibly present `created_at` key). -/
structure MoodPayload where
  date : String
  moodScore : Int
  moodLabel : Option String
  keywords : Option String
  note : Option String
  weatherDesc : Option String
  weatherTemp : Option Rat
  tarotName : Option String
  tarotOrientation : Option String
  tarotMeaning : Option String
  aiAnalysis : Option String
  aiRecommendation : Option String
  createdAtOpt : Option String
deriving DecidableEq

/-- `upsert_mood_log` of `src/app.py`:
`INSERT INTO mood_logs ... ON CONFLICT(date) DO UPDATE SET` every column
except `date` and `created_at`, with `updated_at=excluded.updated_at`
(`updateMoodRow` is the `DO UPDATE` action applied to a conflicting row). -/
def updateMoodRow (p : MoodPayload) (now : String) (r : MoodLog) : MoodLog :=
  if r.date == p.date then
    { date := r.date, moodScore := p.moodScore, moodLabel := p.moodLabel,
      keywords := p.keywords, note := p.note, weatherDesc := p.weatherDesc,
      weatherTemp := p.weatherTemp, tarotName := p.tarotName,
      tarotOrientation := p.tarotOrientation, tarotMeaning := p.tarotMeaning,
      aiAnalysis := p.aiAnalysis, aiRecommendation := p.aiRecommendation,
      createdAt := r.createdAt, updatedAt := now }
  else r

def upsert_mood_log (st : Store) (p : MoodPayload) (now : String) : Store :=
  if st.moodLogs.any (fun r => r.date == p.date) then
    { st with moodLogs := st.moodLogs.map (updateMoodRow p now) }
  else
    { st with moodLogs := st.moodLogs ++
        [{ date := p.date, moodScore := p.moodScore, moodLabel := p.moodLabel,
           keywords := p.keywords, note := p.note, weatherDesc := p.weatherDesc,
           weatherTemp := p.weatherTemp, tarotName := p.tarotName,
           tarotOrientation := p.tarotOrientation, tarotMeaning := p.tarotMeaning,
           aiAnalysis := p.aiAnalysis, aiRecommendation := p.aiRecommendation,
           createdAt := p.createdAtOpt.getD now, updatedAt := now }] }

/-- `load_mood_log` of `src/app.py`:
`SELECT * FROM mood_logs WHERE date=?` followed by `fetchone()`. -/
def load_mood_log (st : Store) (date : String) : Option MoodLog :=
  st.moodLogs.find? (fun r => r.date == date)

/-- The `UNIQUE(date, type)` key predicate of `ai_messages`. -/
def aiMsgKey (date msgType : String) (r : AiMessage) : Bool :=
  r.date == date && r.msgType == msgType

/-- `save_ai_message` of `src/app.py`:
`INSERT INTO ai_messages ... ON CONFLICT(date, type) DO UPDATE SET
content=excluded.content, created_at=excluded.created_at`
(`updateMsgRow` is the `DO UPDATE` action applied to a conflicting row). -/
def updateMsgRow (date msgType content now : String) (r : AiMessage) : AiMessage :=
  if aiMsgKey date msgType r then
    { r with content := content, createdAt := now }
  else r

/-- The row inserted by `save_ai_message` when no conflict occurs. -/
def newMsgRow (st : Store) (date msgType content now : String) : AiMessage :=
  { msgId := nextId (st.aiMessages.map (fun r => r.msgId)), date := date,
    msgType := msgType, content := content, createdAt := now }

def save_ai_message (st : Store) (date msgType content now : String) : Store :=
  if st.aiMessages.any (aiMsgKey date msgType) then
    { st with aiMessages := st.aiMessages.map (updateMsgRow date msgType content now) }
  else
    { st with aiMessages := st.aiMessages ++ [newMsgRow st date msgType content now] }

/-- `load_ai_message` of `src/app.py`:
`SELECT content FROM ai_messages WHERE date=? AND type=?` with `fetchone()`. -/
def load_ai_message (st : Store) (date msgType : String) : Option String :=
  (st.aiMessages.find? (aiMsgKey date msgType)).map (fun r => r.content)

/-- The row shape produced by the `SELECT` of `fetch_range_table` in
`src/app.py` (mood-log columns plus `substr(m.ai_recommendation, 1, 120)`). -/
structure RangeRow where
  date : String
  moodScore : Int
  moodLabel : Option String
  keywords : Option String
  weatherDesc : Option String
  weatherTemp : Option Rat
  tarotName : Option String
  tarotOrientation : Option String
  aiRecoPreview : Option String
deriving DecidableEq

/-- Projection of a `mood_logs` row to the columns selected by
`fetch_range_table` in `src/app.py`. -/
def projectRangeRow (m : MoodLog) : RangeRow :=
  { date := m.date, moodScore := m.moodScore, moodLabel := m.moodLabel,
    keywords := m.keywords, weatherDesc := m.weatherDesc,
    weatherTemp := m.weatherTemp, tarotName := m.tarotName,
    tarotOrientation := m.tarotOrientation,
    aiRecoPreview := m.aiRecommendation.map (fun s => s.take 120) }

/-- `fetch_range_table` of `src/app.py`:
`SELECT ... FROM mood_logs m WHERE m.date BETWEEN ? AND ?
ORDER BY m.date DESC` (no other table appears in the query). -/
def fetch_range_table (st : Store) (startDate endDate : String) : List RangeRow :=
  (sortOrd (fun a b => strLe b.date a.date)
      (st.moodLogs.filter (fun m => strLe startDate m.date && strLe m.date endDate))).map
    projectRangeRow

/-- The habit insert of `page_settings` in `src/app.py`:
`INSERT INTO habits (name, category, target_value, target_unit, is_active,
created_at) VALUES (?, ?, ?, ?, 1, ?)`. -/
def add_habit (st : Store) (name : String) (category : Option String)
    (targetValue : Int) (targetUnit now : String) : Store :=
  { st with habits := st.habits ++
      [{ habitId := nextId (st.habits.map (fun h => h.habitId)), name := name,
         category := category, targetValue := targetValue, targetUnit := targetUnit,
         isActive := 1, createdAt := now }] }

/-- The activity toggle of `page_settings` in `src/app.py`:
`UPDATE habits SET is_active=? WHERE habit_id=?`. -/
def set_habit_active (st : Store) (hid active : Int) : Store :=
  { st with habits := st.habits.map (fun h =>
      if h.habitId == hid then { h with isActive := active } else h) }

/-- The edit form of `page_settings` in `src/app.py`:
`UPDATE habits SET name=?, category=?, target_value=?, target_unit=?
WHERE habit_id=?`. -/
def update_habit (st : Store) (hid : Int) (name : String)
    (category : Option String) (targetValue : Int) (targetUnit : String) : Store :=
  { st with habits := st.habits.map (fun h =>
      if h.habitId == hid then
        { h with name := name, category := category, targetValue := targetValue,
                 targetUnit := targetUnit }
      else h) }

/-- `seed_habits_if_empty` of `src/app.py`: inserts the four default habits
when the `habits` table is empty. -/
def seed_habits_if_empty (st : Store) (now : String) : Store :=
  if st.habits.isEmpty then
    add_habit (add_habit (add_habit (add_habit st
      "물 마시기" (some "건강") 8 "cups" now)
      "스트레칭" (some "건강") 10 "minutes" now)
      "산책" (some "건강") 20 "minutes" now)
      "명상" (some "마음") 5 "minutes" now
  else st

/-- A result of `zenquotes_today` in `src/app.py` (`{"quote": ..,
"author": ..}`). -/
structure ZenQuote where
  quote : String
  author : String
deriving DecidableEq

/-- The quote block of `page_today` in `src/app.py`:
```
try:
    quote = zenquotes_today()
    if quote and quote.get("quote"):
        save_ai_message(date, "quote", f"...".strip())
except Exception:
    pass
```
The outcome of the external HTTP call is the `Except` argument: `error`
models the call raising, in which case the `except ... pass` makes the block
a no-op on the store. -/
def quote_block (result : Except String (Option ZenQuote)) (date now : String)
    (st : Store) : Store :=
  match result with
  | Except.error _ => st
  | Except.ok none => st
  | Except.ok (some z) =>
    if z.quote ≠ "" then
      save_ai_message st date "quote"
        (("“" ++ z.quote ++ "” — " ++ z.author).trim) now
    else st

/-- The store-mutating operations of `src/app.py` (every SQL write the app
performs after `init_db`). -/
inductive StoreOp where
  | habitLogWrite (date : String) (hid isDone : Int) (memo now : String)
  | moodLogWrite (p : MoodPayload) (now : String)
  | aiMessageWrite (date msgType content now : String)
  | habitAdd (name : String) (category : Option String) (tv : Int) (tu now : String)
  | habitSetActive (hid active : Int)
  | habitUpdate (hid : Int) (name : String) (category : Option String)
      (tv : Int) (tu : String)
  | habitSeed (now : String)

def applyOp (st : Store) : StoreOp → Store
  | StoreOp.habitLogWrite d h dn m now => upsert_habit_log st d h dn m now
  | StoreOp.moodLogWrite p now => upsert_mood_log st p now
  | StoreOp.aiMessageWrite d k c now => save_ai_message st d k c now
  | StoreOp.habitAdd n c tv tu now => add_habit st n c tv tu now
  | StoreOp.habitSetActive hid a => set_habit_active st hid a
  | StoreOp.habitUpdate hid n c tv tu => update_habit st hid n c tv tu
  | StoreOp.habitSeed now => seed_habits_if_empty st now

/-- A reachable database state: `init_db` (empty tables) followed by any
sequence of the app's writes. -/
def applyOps (ops : List StoreOp) : Store := ops.foldl applyOp initStore

/-- Modelled from the spec: `src/app.py` contains no streak computation, so
the Stats Engine's *current streak* is taken from spec section 4.2: count
consecutive achieved days walking backward from today (the last entry of
`days`, which lists the lookback window oldest to newest), stopping at the
first non-achieved day. -/
def currentStreak (days : List Bool) : Nat :=
  (days.reverse.takeWhile id).length

/-- Modelled from the spec (section 4.2): one step of the *best streak* scan:
the running counter resets to 0 on a non-achieved day, and the maximum is
tracked. -/
def streakStep (p : Nat × Nat) (d : Bool) : Nat × Nat :=
  (if d then p.1 + 1 else 0, max p.2 (if d then p.1 + 1 else 0))

/-- Modelled from the spec: `src/app.py` contains no streak computation, so
the Stats Engine's *best streak* is taken from spec section 4.2: scan the
window oldest to newest, resetting a running counter to 0 on any
non-achieved day and tracking the maximum. -/
def bestStreak (days : List Bool) : Nat :=
  (days.foldl streakStep (0, 0)).2

/-- A habit-log record joined with its habit row. -/
structure JoinedLog where
  log : HabitLog
  habit : Habit
deriving DecidableEq

/-- Modelled from the spec (for the refinement check of the range query, to
be compared with `fetch_range_table`): `getLogsInRange(startDate, endDate)`
returns the stored habit-log records joined with habit metadata, inclusive
bounds, ordered by date descending then habit id ascending. -/
def getLogsInRange_specModel (st : Store) (startDate endDate : String) :
    List JoinedLog :=
  sortOrd (fun a b =>
      if a.log.date == b.log.date then decide (a.log.habitId ≤ b.log.habitId)
      else strLe b.log.date a.log.date)
    ((st.habitLogs.filter (fun r => strLe startDate r.date && strLe r.date endDate)).filterMap
      (fun r => (st.habits.find? (fun h => h.habitId == r.habitId)).map
        (fun h => { log := r, habit := h })))

/-- Number of `habit_logs` rows carrying a given `(date, habit_id)` key. -/
def logKeyCount (st : Store) (date : String) (hid : Int) : Nat :=
  st.habitLogs.countP (habitLogKey date hid)

/-- Number of `ai_messages` rows carrying a given `(date, type)` key. -/
def msgKeyCount (st : Store) (date msgType : String) : Nat :=
  st.aiMessages.countP (aiMsgKey date msgType)

/-- "The log for that date exists and is marked done": some `habit_logs` row
matches the `(date, habit_id)` key with `is_done = 1`. -/
def hasDoneLog (st : Store) (date : String) (hid : Int) : Bool :=
  st.habitLogs.any (fun r => r.date == date && r.habitId == hid && r.isDone == 1)

/-- The `UNIQUE(date, habit_id)` constraint of the `habit_logs` table, as a
predicate on modelled states. -/
def LogKeysUnique (st : Store) : Prop :=
  st.habitLogs.Pairwise (fun a b => ¬(a.date = b.date ∧ a.habitId = b.habitId))

/-- Concrete store for the spec scenario of C1: two active habits A and B,
and for day `2025-03-01` a log marking A done and B not done. -/
def scenarioStore : Store :=
  { habits := [
      { habitId := 1, name := "A", category := none, targetValue := 1,
        targetUnit := "times", isActive := 1, createdAt := "t0" },
      { habitId := 2, name := "B", category := none, targetValue := 1,
        targetUnit := "times", isActive := 1, createdAt := "t0" }],
    habitLogs := [
      { logId := 1, date := "2025-03-01", habitId := 1, isDone := 1, memo := "",
        updatedAt := "t1" },
      { logId := 2, date := "2025-03-01", habitId := 2, isDone := 0, memo := "",
        updatedAt := "t1" }],
    moodLogs := [], aiMessages := [] }

/-- Concrete store with one cached digest, used to witness the overwrite
behaviour of `save_ai_message`. -/
def msgStore1 : Store :=
  { habits := [], habitLogs := [], moodLogs := [],
    aiMessages := [{ msgId := 1, date := "2025-01-01", msgType := "quote",
                     content := "old", createdAt := "t0" }] }

/-- Concrete store with one habit and one habit-log row inside the queried
range but no mood-log rows; exhibits that `fetch_range_table` does not return
habit-log records joined with habit metadata. -/
def rangeStore : Store :=
  { habits := [{ habitId := 1, name := "A", category := none, targetValue := 1,
                 targetUnit := "times", isActive := 1, createdAt := "t0" }],
    habitLogs := [{ logId := 1, date := "2025-03-02", habitId := 1, isDone := 1,
                    memo := "", updatedAt := "t1" }],
    moodLogs := [], aiMessages := [] }

/-- Concrete store with one mood log (created at `t0`), used to witness
`created_at` preservation in `upsert_mood_log`. -/
def moodStore1 : Store :=
  { habits := [], habitLogs := [], aiMessages := [],
    moodLogs := [{ date := "2025-01-01", moodScore := 3, moodLabel := none,
                   keywords := none, note := none, weatherDesc := none,
                   weatherTemp := none, tarotName := none,
                   tarotOrientation := none, tarotMeaning := none,
                   aiAnalysis := none, aiRecommendation := none,
                   createdAt := "t0", updatedAt := "t0" }] }

/-- Concrete payload overwriting the mood log of `moodStore1`. -/
def moodPayload1 : MoodPayload :=
  { date := "2025-01-01", moodScore := 5, moodLabel := some "good",
    keywords := some "k", note := some "n", weatherDesc := some "sun",
    weatherTemp := none, tarotName := some "The Sun",
    tarotOrientation := some "upright", tarotMeaning := some "m",
    aiAnalysis := some "a", aiRecommendation := some "r", createdAtOpt := none }

theorem perm_insertOrd {α : Type} (le : α → α → Bool) (a : α) (l : List α) :
    List.Perm (insertOrd le a l) (a :: l) := by
  induction l with
  | nil => exact List.Perm.refl _
  | cons x xs ih =>
    unfold insertOrd
    split_ifs with h
    · exact List.Perm.refl _
    · exact List.Perm.trans (List.Perm.cons x ih) (List.Perm.swap a x xs)

theorem perm_sortOrd {α : Type} (le : α → α → Bool) (l : List α) :
    List.Perm (sortOrd le l) l := by
  induction l with
  | nil => exact List.Perm.refl _
  | cons x xs ih =>
    exact List.Perm.trans (perm_insertOrd le x (sortOrd le xs)) (List.Perm.cons x ih)

theorem mem_sortOrd {α : Type} (le : α → α → Bool) (a : α) (l : List α) :
    a ∈ sortOrd le l ↔ a ∈ l :=
  (perm_sortOrd le l).mem_iff

theorem pairwise_insertOrd {α : Type} (le : α → α → Bool)
    (htot : ∀ a b, le a b = false → le b a = true)
    (htrans : ∀ a b c, le a b = true → le b c = true → le a c = true)
    (a : α) (l : List α) (h : List.Pairwise (fun x y => le x y = true) l) :
    List.Pairwise (fun x y => le x y = true) (insertOrd le a l) := by
  induction l with
  | nil => simp [insertOrd]
  | cons x xs ih =>
    rw [List.pairwise_cons] at h
    unfold insertOrd
    split_ifs with hax
    · rw [List.pairwise_cons]
      constructor
      · intro y hy
        rcases List.mem_cons.mp hy with hyx | hyxs
        · subst hyx; exact hax
        · exact htrans a x y hax (h.1 y hyxs)
      · rw [List.pairwise_cons]
        exact h
    · rw [List.pairwise_cons]
      constructor
      · intro y hy
        rcases List.mem_cons.mp ((perm_insertOrd le a xs).mem_iff.mp hy) with hya | hyxs
        · rw [hya]; exact htot a x (Bool.eq_false_iff.mpr hax)
        · exact h.1 y hyxs
      · exact ih h.2

theorem pairwise_sortOrd {α : Type} (le : α → α → Bool)
    (htot : ∀ a b, le a b = false → le b a = true)
    (htrans : ∀ a b c, le a b = true → le b c = true → le a c = true)
    (l : List α) :
    List.Pairwise (fun x y => le x y = true) (sortOrd le l) := by
  induction l with
  | nil => simp [sortOrd]
  | cons x xs ih => exact pairwise_insertOrd le htot htrans x (sortOrd le xs) ih

theorem charListLe_total : ∀ u v, charListLe u v = false → charListLe v u = true := by
  intro u
  induction u with
  | nil => intro v h; simp [charListLe] at h
  | cons a as ih =>
    intro v h
    cases v with
    | nil => rfl
    | cons b bs =>
      unfold charListLe at h ⊢
      rcases Nat.lt_trichotomy a.toNat b.toNat with hab | hab | hab
      · rw [if_pos hab] at h; simp at h
      · rw [if_neg (by omega), if_neg (by omega)] at h
        rw [if_neg (by omega), if_neg (by omega)]
        exact ih bs h
      · rw [if_pos hab]

theorem charListLe_trans :
    ∀ u v w, charListLe u v = true → charListLe v w = true → charListLe u w = true := by
  intro u
  induction u with
  | nil => intro v w h1 h2; rfl
  | cons a as ih =>
    intro v w h1 h2
    cases v with
    | nil => simp [charListLe] at h1
    | cons b bs =>
      cases w with
      | nil => simp [charListLe] at h2
      | cons c cs =>
        unfold charListLe at h1 h2 ⊢
        rcases Nat.lt_trichotomy a.toNat b.toNat with hab | hab | hab
        · rcases Nat.lt_trichotomy b.toNat c.toNat with hbc | hbc | hbc
          · rw [if_pos (by omega)]
          · rw [if_pos (by omega)]
          · rw [if_neg (by omega), if_pos (by omega)] at h2; simp at h2
        · rw [if_neg (by omega), if_neg (by omega)] at h1
          rcases Nat.lt_trichotomy b.toNat c.toNat with hbc | hbc | hbc
          · rw [if_pos (by omega)]
          · rw [if_neg (by omega), if_neg (by omega)] at h2
            rw [if_neg (by omega), if_neg (by omega)]
            exact ih bs cs h1 h2
          · rw [if_neg (by omega), if_pos (by omega)] at h2; simp at h2
        · rw [if_neg (by omega), if_pos (by omega)] at h1; simp at h1

theorem strLe_total (a b : String) : strLe a b = false → strLe b a = true :=
  charListLe_total a.data b.data

theorem strLe_trans (a b c : String) :
    strLe a b = true → strLe b c = true → strLe a c = true :=
  charListLe_trans a.data b.data c.data

theorem foldl_count_eq {α : Type} (cond : α → Bool) (l : List α) (n : Int) :
    l.foldl (fun acc h => if cond h then acc + 1 else acc) n =
      n + (l.countP cond : Int) := by
  induction l generalizing n with
  | nil => simp
  | cons x xs ih =>
    simp only [List.foldl_cons, List.countP_cons]
    by_cases hx : cond x
    · rw [if_pos hx, ih]
      simp [hx]
      ring
    · rw [if_neg hx, ih]
      simp [hx]

theorem takeWhile_length_le {α : Type} (p : α → Bool) (l : List α) :
    (l.takeWhile p).length ≤ l.length := by
  induction l with
  | nil => simp
  | cons x xs ih =>
    rw [List.takeWhile_cons]
    by_cases hx : p x
    · simp only [hx, if_pos]
      simp only [List.length_cons]
      omega
    · simp [hx]

theorem find?_map_pred {α : Type} (u : α → α) (q : α → Bool)
    (hq : ∀ a, q (u a) = q a) (l : List α) :
    List.find? q (List.map u l) = (List.find? q l).map u := by
  induction l with
  | nil => simp
  | cons x xs ih =>
    simp only [List.map_cons, List.find?_cons]
    rw [hq x]
    by_cases hx : q x
    · simp [hx]
    · simp only [Bool.eq_false_iff.mpr hx]
      exact ih

theorem getLast?_append_singleton {α : Type} (l : List α) (a : α) :
    (l ++ [a]).getLast? = some a :=
  List.getLast?_concat l

theorem map_eq_self_of_no_match {α : Type} (u : α → α) (p : α → Bool)
    (hu : ∀ a, p a = false → u a = a) (l : List α) (h : l.any p = false) :
    List.map u l = l := by
  have h' := List.any_eq_false.mp h
  calc List.map u l = List.map id l := by
        apply List.map_congr_left
        intro a ha
        exact hu a (Bool.eq_false_iff.mpr (h' a ha))
    _ = l := List.map_id l

theorem log2Fuel_spec :
    ∀ (fuel n : Nat), 1 ≤ n → n ≤ fuel →
      2 ^ log2Fuel fuel n ≤ n ∧ n < 2 ^ (log2Fuel fuel n + 1) := by
  intro fuel
  induction fuel with
  | zero => intro n h1 h2; omega
  | succ fuel ih =>
    intro n h1 h2
    unfold log2Fuel
    by_cases h : 2 ≤ n
    · rw [if_pos h]
      have hrec := ih (n / 2) (by omega) (by omega)
      constructor
      · rw [pow_succ]
        have := hrec.1
        omega
      · rw [pow_succ, pow_succ]
        have h2' := hrec.2
        rw [pow_succ] at h2'
        omega
    · rw [if_neg h]
      norm_num
      omega

theorem natLog2_spec (n : Nat) (h1 : 1 ≤ n) :
    2 ^ natLog2 n ≤ n ∧ n < 2 ^ (natLog2 n + 1) :=
  log2Fuel_spec n n h1 (le_refl n)

theorem rheDiv_nonneg (a b : Int) (ha : 0 ≤ a) (hb : 0 < b) :
    0 ≤ roundHalfEvenDiv a b := by
  have hq : 0 ≤ a / b := Int.ediv_nonneg ha (le_of_lt hb)
  unfold roundHalfEvenDiv
  split_ifs <;> omega

theorem rheDiv_le_of_lt_mul (a b c : Int) (hb : 0 < b) (h : a < b * c) :
    roundHalfEvenDiv a b ≤ c := by
  have hq : a / b < c := by
    rw [Int.ediv_lt_iff_lt_mul hb]
    rw [mul_comm] at h
    exact h
  unfold roundHalfEvenDiv
  split_ifs <;> omega

theorem rheDiv_twice_le (a b : Int) (hb : 0 < b) :
    2 * b * roundHalfEvenDiv a b ≤ 2 * a + b := by
  have hmod := Int.ediv_add_emod a b
  have hr0 : 0 ≤ a % b := Int.emod_nonneg a (ne_of_gt hb)
  have hrb : a % b < b := Int.emod_lt_of_pos a hb
  have hX : b * (a / b) = a - a % b := by omega
  unfold roundHalfEvenDiv
  split_ifs with h1 h2 h3
  · rw [mul_assoc, hX]
    omega
  · rw [mul_add, mul_assoc, hX]
    omega
  · rw [mul_assoc, hX]
    omega
  · rw [mul_add, mul_assoc, hX]
    omega

theorem rheDiv_le_100 (a b : Int) (hb : 0 < b) (h : 2 * a ≤ 201 * b) :
    roundHalfEvenDiv a b ≤ 100 := by
  have hmod := Int.ediv_add_emod a b
  have hr0 : 0 ≤ a % b := Int.emod_nonneg a (ne_of_gt hb)
  have hrb : a % b < b := Int.emod_lt_of_pos a hb
  have hq : a / b ≤ 100 := by
    have hlt : a < b * 101 := by omega
    have := (Int.ediv_lt_iff_lt_mul hb).mpr (by rw [mul_comm] at hlt; exact hlt)
    omega
  have hX : b * (a / b) = a - a % b := by omega
  unfold roundHalfEvenDiv
  split_ifs with h1 h2 h3
  · exact hq
  · by_contra hcon
    have hq100 : a / b = 100 := by omega
    rw [hq100] at hX
    omega
  · exact hq
  · by_contra hcon
    have hq100 : a / b = 100 := by omega
    rw [hq100] at h3
    exact h3 (by decide)

theorem rheDiv_mul_cancel (c b : Int) (hb : 0 < b) :
    roundHalfEvenDiv (c * b) b = c := by
  have h1 : c * b / b = c := Int.mul_ediv_cancel c (ne_of_gt hb)
  have h2 : c * b % b = 0 := Int.mul_emod_left c b
  unfold roundHalfEvenDiv
  rw [h1, h2]
  rw [if_pos (by omega)]

theorem natLog2_le_natLog2 (n d : Nat) (h1 : 1 ≤ n) (hnd : n ≤ d) :
    natLog2 n ≤ natLog2 d := by
  have hn := natLog2_spec n h1
  have hd := natLog2_spec d (by omega)
  by_contra hc
  have hp : 2 ^ (natLog2 d + 1) ≤ 2 ^ natLog2 n :=
    Nat.pow_le_pow_right (by omega) (by omega)
  omega

theorem ratLog2Floor_upper (n d : Nat) (h1 : 1 ≤ n) (hnd : n ≤ d) :
    ratLog2Floor n d ≤ 0 ∧
    n * 2 ^ (52 - ratLog2Floor n d).toNat < d * 2 ^ 53 := by
  have hn := natLog2_spec n h1
  have hd := natLog2_spec d (by omega)
  have hmono := natLog2_le_natLog2 n d h1 hnd
  unfold ratLog2Floor
  split_ifs with hcond
  · constructor
    · omega
    · have htn : ((52 : Int) - ((natLog2 n : Int) - natLog2 d)).toNat =
          52 + natLog2 d - natLog2 n := by omega
      rw [htn]
      calc n * 2 ^ (52 + natLog2 d - natLog2 n)
          < 2 ^ (natLog2 n + 1) * 2 ^ (52 + natLog2 d - natLog2 n) := by
            exact (Nat.mul_lt_mul_right (by positivity)).mpr hn.2
        _ = 2 ^ natLog2 d * 2 ^ 53 := by
            rw [← pow_add, ← pow_add]
            congr 1
            omega
        _ ≤ d * 2 ^ 53 := Nat.mul_le_mul_right _ hd.1
  · constructor
    · omega
    · have htn : ((52 : Int) - ((natLog2 n : Int) - natLog2 d - 1)).toNat =
          53 + natLog2 d - natLog2 n := by omega
      rw [htn]
      have hkey : n * 2 ^ natLog2 d < d * 2 ^ natLog2 n := by omega
      have hgoal2 : n * 2 ^ (53 + natLog2 d - natLog2 n) * 2 ^ natLog2 n <
          d * 2 ^ 53 * 2 ^ natLog2 n := by
        calc n * 2 ^ (53 + natLog2 d - natLog2 n) * 2 ^ natLog2 n
            = n * 2 ^ natLog2 d * 2 ^ 53 := by
              rw [mul_assoc, mul_assoc, ← pow_add, ← pow_add]
              congr 2
              omega
          _ < d * 2 ^ natLog2 n * 2 ^ 53 := by
              exact (Nat.mul_lt_mul_right (by positivity)).mpr hkey
          _ = d * 2 ^ 53 * 2 ^ natLog2 n := by ring
      exact Nat.lt_of_mul_lt_mul_right hgoal2

theorem ratLog2Floor_le_neg_one (n d : Nat) (h1 : 1 ≤ n) (hlt : n < d) :
    ratLog2Floor n d ≤ -1 := by
  have hmono := natLog2_le_natLog2 n d h1 (le_of_lt hlt)
  unfold ratLog2Floor
  split_ifs with hcond
  · have hln : natLog2 n < natLog2 d := by
      by_contra hc
      have heq : natLog2 n = natLog2 d := by omega
      rw [heq] at hcond
      have : d ≤ n := Nat.le_of_mul_le_mul_right hcond (by positivity)
      omega
    omega
  · omega

theorem ratLog2Floor_self (n : Nat) : ratLog2Floor n n = 0 := by
  unfold ratLog2Floor
  rw [if_pos (le_refl _)]
  omega

theorem floatDivSig_eq (n d : Nat) (h : ratLog2Floor n d ≤ 52) :
    floatDivSig n d =
      (roundHalfEvenDiv ((n : Int) * 2 ^ (52 - ratLog2Floor n d).toNat) (d : Int),
       ratLog2Floor n d - 52) := by
  unfold floatDivSig
  rw [if_pos h]

theorem pctPos_self (n : Nat) (h1 : 1 ≤ n) : pctPos n n = 100 := by
  have hn0 : (0 : Int) < (n : Int) := by exact_mod_cast h1
  have hfd : floatDivSig n n = (2 ^ 52, -52) := by
    rw [floatDivSig_eq n n (by rw [ratLog2Floor_self]; norm_num)]
    rw [ratLog2Floor_self]
    rw [show ((52 : Int) - 0).toNat = 52 from by decide]
    rw [mul_comm ((n : Int)) (2 ^ 52), rheDiv_mul_cancel (2 ^ 52) (n : Int) hn0]
    norm_num
  show roundSigToInt (floatTimes100Sig (floatDivSig n n).1).1
      ((floatDivSig n n).2 + (floatTimes100Sig (floatDivSig n n).1).2) = 100
  rw [hfd]
  decide

theorem stage23_bounds (m1 k : Int) (j : Nat) (hj6 : 6 ≤ j) (hj7 : j ≤ 7)
    (hm1nn : 0 ≤ m1) (hm1le : m1 ≤ 2 ^ 53) (hk : k ≤ -1) :
    0 ≤ roundSigToInt (roundHalfEvenDiv (m1 * 100) (2 ^ j)) (k - 52 + (j : Int)) ∧
    roundSigToInt (roundHalfEvenDiv (m1 * 100) (2 ^ j)) (k - 52 + (j : Int)) ≤ 100 := by
  have h2j : (0 : Int) < 2 ^ j := by positivity
  set m2 := roundHalfEvenDiv (m1 * 100) (2 ^ j) with hm2def
  have hm2nn : 0 ≤ m2 := rheDiv_nonneg _ _ (by positivity) h2j
  have hrs : roundSigToInt m2 (k - 52 + (j : Int)) =
      roundHalfEvenDiv m2 (2 ^ (-(k - 52 + (j : Int))).toNat) := by
    unfold roundSigToInt
    rw [if_neg (by omega)]
  rw [hrs]
  set E2 : Nat := (-(k - 52 + (j : Int))).toNat with hE2
  have hE2pos : (0 : Int) < 2 ^ E2 := by positivity
  constructor
  · exact rheDiv_nonneg _ _ hm2nn hE2pos
  · apply rheDiv_le_100 _ _ hE2pos
    have hstep := rheDiv_twice_le (m1 * 100) (2 ^ j) h2j
    have hsum : 53 ≤ E2 + j := by omega
    have hbig : (2 : Int) ^ 53 ≤ 2 ^ (E2 + j) :=
      pow_le_pow_right₀ (by norm_num) hsum
    have hsmall : (2 : Int) ^ j ≤ 2 ^ (E2 + j) :=
      pow_le_pow_right₀ (by norm_num) (by omega)
    have key : 2 * m2 * 2 ^ j ≤ 201 * 2 ^ E2 * 2 ^ j := by
      have hr : (201 : Int) * 2 ^ E2 * 2 ^ j = 201 * 2 ^ (E2 + j) := by
        rw [mul_assoc, ← pow_add]
      rw [hr]
      have h200 : 2 * (m1 * 100) = 200 * m1 := by ring
      calc 2 * m2 * 2 ^ j = 2 * 2 ^ j * m2 := by ring
        _ ≤ 2 * (m1 * 100) + 2 ^ j := hstep
        _ ≤ 200 * 2 ^ 53 + 2 ^ j := by omega
        _ ≤ 200 * 2 ^ (E2 + j) + 2 ^ (E2 + j) := by omega
        _ = 201 * 2 ^ (E2 + j) := by ring
    exact Int.le_of_mul_le_mul_right key h2j

theorem pctPos_bounds (n d : Nat) (h1 : 1 ≤ n) (hnd : n ≤ d) :
    0 ≤ pctPos n d ∧ pctPos n d ≤ 100 := by
  rcases eq_or_lt_of_le hnd with heq | hlt
  · rw [← heq, pctPos_self n h1]
    norm_num
  · have hd0 : (0 : Int) < (d : Int) := by exact_mod_cast (by omega : 0 < d)
    have hk1 := ratLog2Floor_le_neg_one n d h1 hlt
    have hup := (ratLog2Floor_upper n d h1 hnd).2
    set k := ratLog2Floor n d with hkdef
    have hfd : floatDivSig n d =
        (roundHalfEvenDiv ((n : Int) * 2 ^ (52 - k).toNat) (d : Int), k - 52) :=
      floatDivSig_eq n d (by omega)
    set m1 := roundHalfEvenDiv ((n : Int) * 2 ^ (52 - k).toNat) (d : Int) with hm1def
    have hm1nn : 0 ≤ m1 := rheDiv_nonneg _ _ (by positivity) hd0
    have hm1le : m1 ≤ 2 ^ 53 := by
      apply rheDiv_le_of_lt_mul _ _ _ hd0
      exact_mod_cast hup
    have hpct : pctPos n d =
        roundSigToInt (floatTimes100Sig m1).1 ((k - 52) + (floatTimes100Sig m1).2) := by
      show roundSigToInt (floatTimes100Sig (floatDivSig n d).1).1
          ((floatDivSig n d).2 + (floatTimes100Sig (floatDivSig n d).1).2) = _
      rw [hfd]
    rw [hpct]
    by_cases hmp : m1 * 100 < 2 ^ 59
    · have hft1 : (floatTimes100Sig m1).1 = roundHalfEvenDiv (m1 * 100) (2 ^ 6) := by
        unfold floatTimes100Sig
        rw [if_pos hmp]
      have hft2 : (floatTimes100Sig m1).2 = 6 := by
        unfold floatTimes100Sig
        rw [if_pos hmp]
      rw [hft1, hft2]
      exact stage23_bounds m1 k 6 (by norm_num) (by norm_num) hm1nn hm1le hk1
    · have hft1 : (floatTimes100Sig m1).1 = roundHalfEvenDiv (m1 * 100) (2 ^ 7) := by
        unfold floatTimes100Sig
        rw [if_neg hmp]
      have hft2 : (floatTimes100Sig m1).2 = 7 := by
        unfold floatTimes100Sig
        rw [if_neg hmp]
      rw [hft1, hft2]
      exact stage23_bounds m1 k 7 (by norm_num) (by norm_num) hm1nn hm1le hk1

theorem pct_bounds (d t : Int) (hd : 0 ≤ d) (hdt : d ≤ t) :
    0 ≤ pct d t ∧ pct d t ≤ 100 := by
  unfold pct
  split_ifs with h1 h2 h3
  · omega
  · omega
  · have ha : 1 ≤ d.toNat := by omega
    have hb : d.toNat ≤ t.toNat := by omega
    exact pctPos_bounds d.toNat t.toNat ha hb
  · omega

theorem currentStreak_concat (l : List Bool) (d : Bool) :
    currentStreak (l ++ [d]) = if d then currentStreak l + 1 else 0 := by
  unfold currentStreak
  rw [List.reverse_append]
  cases d
  · simp [List.takeWhile_cons]
  · simp [List.takeWhile_cons]

theorem streakFold_fst_le_snd (l : List Bool) :
    ∀ acc : Nat × Nat, acc.1 ≤ acc.2 →
      (l.foldl streakStep acc).1 ≤ (l.foldl streakStep acc).2 := by
  induction l with
  | nil => intro acc h; exact h
  | cons x xs ih =>
    intro acc h
    rw [List.foldl_cons]
    apply ih
    unfold streakStep
    exact le_max_right _ _

theorem currentStreak_le_foldl_fst (l : List Bool) :
    ∀ acc : Nat × Nat, currentStreak l ≤ (l.foldl streakStep acc).1 := by
  induction l using List.reverseRecOn with
  | nil => intro acc; simp [currentStreak]
  | append_singleton l d ih =>
    intro acc
    rw [List.foldl_append, currentStreak_concat]
    cases d
    · simp [streakStep]
    · have := ih acc
      simp [streakStep]
      omega

theorem foldl_snd_mono (l : List Bool) :
    ∀ acc : Nat × Nat, acc.2 ≤ (l.foldl streakStep acc).2 := by
  induction l with
  | nil => intro acc; exact le_refl _
  | cons x xs ih =>
    intro acc
    rw [List.foldl_cons]
    refine le_trans ?_ (ih _)
    unfold streakStep
    exact le_max_left _ _

/-- C2: over any lookback window of achievement flags (`days`, oldest to
newest, today last), the current streak is at most the window length and the
best streak is at least the current streak; for the 5-day sequence
`[ok, ok, ok, fail, ok]` the best streak is 3 and the current streak is 1. -/
theorem streak_bounds_and_scenario :
    (∀ days : List Bool, currentStreak days ≤ days.length) ∧
    (∀ days : List Bool, currentStreak days ≤ bestStreak days) ∧
    bestStreak [true, true, true, false, true] = 3 ∧
    currentStreak [true, true, true, false, true] = 1 := by
  refine ⟨?_, ?_, by decide, by decide⟩
  · intro days
    unfold currentStreak
    calc (days.reverse.takeWhile id).length
        ≤ days.reverse.length := takeWhile_length_le id days.reverse
      _ = days.length := List.length_reverse days
  · intro days
    unfold bestStreak
    exact le_trans (currentStreak_le_foldl_fst days (0, 0))
      (streakFold_fst_le_snd days (0, 0) (le_refl 0))

/-- C9 counterexample: the claim says `pct` rounds half to even for every
`done/total` — that is, agrees with round-half-to-even of the exact rational
(`pctExactHalfEven`).  It does not: the source rounds the *double*.  At
`23/40` the exact value `57.5` would round to the even `58`, but the double
nearest `0.575` times `100` is below the tie and the source returns `57`;
at `109/200` the exact `54.5` would round to the even `54`, but the double
is above the tie and the source returns `55`. -/
theorem pct_exact_tie_counterexample :
    pct 23 40 = 57 ∧ pctExactHalfEven 23 40 = 58 ∧
    pct 109 200 = 55 ∧ pctExactHalfEven 109 200 = 54 :=
  ⟨by decide, by decide, by decide, by decide⟩

/-- C9 (amended): `pct` applies round-half-to-even to the double-precision
value of `(numer/denom) * 100`, not to the exact rational: at the
binary-exact halves `1/8` and `3/8` it returns the even 12 and 38, while at
`23/40` and `109/200` it follows the double and returns 57 and 55; and it
returns 0 for every denominator less than or equal to 0, including negative
ones. -/
theorem pct_half_to_even_on_double :
    pct 1 8 = 12 ∧ pct 3 8 = 38 ∧ pct 23 40 = 57 ∧ pct 109 200 = 55 ∧
    ∀ n d : Int, d ≤ 0 → pct n d = 0 := by
  refine ⟨by decide, by decide, by decide, by decide, ?_⟩
  intro n d hd
  unfold pct
  rw [if_pos hd]

theorem pct_half_to_even_on_double_witness : pct 5 (-3) = 0 :=
  pct_half_to_even_on_double.2.2.2.2 5 (-3) (by decide)

/-- C8: when the external quote call raises (`Except.error`), the quote block
of `page_today` leaves the whole store — in particular every previously
cached digest — unchanged, and returns normally instead of crashing. -/
theorem quote_failure_leaves_digests :
    ∀ (st : Store) (date now e : String),
      quote_block (Except.error e) date now st = st ∧
      ∀ d k, load_ai_message (quote_block (Except.error e) date now st) d k =
        load_ai_message st d k := by
  intro st date now e
  exact ⟨rfl, fun d k => rfl⟩

theorem habit_completion_rate_eq (st : Store) (date : String) :
    habit_completion_rate st date =
      (((fetch_active_habits st).countP
          (fun h => dictDone (fetch_habit_logs_for_date st date) h.habitId) : Int),
       ((fetch_active_habits st).length : Int),
       pct ((fetch_active_habits st).countP
          (fun h => dictDone (fetch_habit_logs_for_date st date) h.habitId) : Int)
         ((fetch_active_habits st).length : Int)) := by
  simp only [habit_completion_rate]
  rw [foldl_count_eq]
  simp

/-- C5: for every store state and every date, the completion rate returned by
`habit_completion_rate` lies in [0, 100], `done` never exceeds `total`, and a
day with zero active habits yields rate 0. -/
theorem completion_rate_in_range :
    ∀ (st : Store) (date : String),
      0 ≤ (habit_completion_rate st date).1 ∧
      (habit_completion_rate st date).1 ≤ (habit_completion_rate st date).2.1 ∧
      0 ≤ (habit_completion_rate st date).2.2 ∧
      (habit_completion_rate st date).2.2 ≤ 100 ∧
      ((habit_completion_rate st date).2.1 = 0 →
        (habit_completion_rate st date).2.2 = 0) := by
  intro st date
  rw [habit_completion_rate_eq]
  have hd : (0 : Int) ≤ ((fetch_active_habits st).countP
      (fun h => dictDone (fetch_habit_logs_for_date st date) h.habitId) : Int) :=
    Int.natCast_nonneg _
  have hdt : ((fetch_active_habits st).countP
      (fun h => dictDone (fetch_habit_logs_for_date st date) h.habitId) : Int) ≤
      ((fetch_active_habits st).length : Int) :=
    Nat.cast_le.mpr (List.countP_le_length _)
  refine ⟨hd, hdt, (pct_bounds _ _ hd hdt).1, (pct_bounds _ _ hd hdt).2, ?_⟩
  intro h0
  unfold pct
  rw [if_pos (le_of_eq h0)]

theorem completion_rate_in_range_witness :
    (habit_completion_rate initStore "2025-01-01").2.2 = 0 :=
  (completion_rate_in_range initStore "2025-01-01").2.2.2.2 (by decide)

theorem any_map_pred {α : Type} (p : α → Bool) (u : α → α)
    (hpu : ∀ a, p (u a) = p a) (l : List α) :
    (l.map u).any p = l.any p := by
  induction l with
  | nil => rfl
  | cons x xs ih => simp [hpu, ih]

theorem countP_map_pred {α : Type} (q : α → Bool) (u : α → α)
    (hqu : ∀ a, q (u a) = q a) (l : List α) :
    (l.map u).countP q = l.countP q := by
  induction l with
  | nil => rfl
  | cons x xs ih => simp [List.countP_cons, hqu, ih]

theorem habitLogKey_updateLogRow (d' : String) (h' : Int) (date : String)
    (hid is_done : Int) (memo now : String) (r : HabitLog) :
    habitLogKey d' h' (updateLogRow date hid is_done memo now r) =
      habitLogKey d' h' r := by
  unfold updateLogRow
  by_cases hr : habitLogKey date hid r = true
  · rw [if_pos hr]; rfl
  · rw [if_neg hr]

theorem updateLogRow_idem (date : String) (hid is_done : Int) (memo now : String)
    (r : HabitLog) :
    updateLogRow date hid is_done memo now (updateLogRow date hid is_done memo now r) =
      updateLogRow date hid is_done memo now r := by
  unfold updateLogRow
  by_cases hr : habitLogKey date hid r = true
  · rw [if_pos hr]
    rw [if_pos (show habitLogKey date hid { r with isDone := is_done, memo := memo, updatedAt := now } = true from hr)]
  · rw [if_neg hr, if_neg hr]

theorem updateLogRow_of_not (date : String) (hid is_done : Int) (memo now : String)
    (r : HabitLog) (hr : habitLogKey date hid r = false) :
    updateLogRow date hid is_done memo now r = r := by
  unfold updateLogRow
  rw [if_neg (by simp [hr])]

theorem habitLogKey_newLogRow (st : Store) (date : String) (hid is_done : Int)
    (memo now : String) :
    habitLogKey date hid (newLogRow st date hid is_done memo now) = true := by
  simp [habitLogKey, newLogRow]

theorem updateLogRow_newLogRow (st : Store) (date : String) (hid is_done : Int)
    (memo now : String) :
    updateLogRow date hid is_done memo now (newLogRow st date hid is_done memo now) =
      newLogRow st date hid is_done memo now := by
  unfold updateLogRow
  rw [if_pos (habitLogKey_newLogRow st date hid is_done memo now)]
  rfl

/-- C3: `upsert_habit_log` is idempotent — a second call with identical
arguments leaves the store exactly as after the first — and an upsert never
brings the number of rows for any `(date, habit_id)` key above 1 unless it
already was (no duplicate record is ever created for a key). -/
theorem upsert_habit_log_idempotent :
    ∀ (st : Store) (date : String) (hid is_done : Int) (memo now : String),
      upsert_habit_log (upsert_habit_log st date hid is_done memo now)
          date hid is_done memo now =
        upsert_habit_log st date hid is_done memo now ∧
      ∀ (d' : String) (h' : Int),
        logKeyCount (upsert_habit_log st date hid is_done memo now) d' h' ≤
          max 1 (logKeyCount st d' h') := by
  intro st date hid dn memo now
  by_cases h : st.habitLogs.any (habitLogKey date hid) = true
  · have e1 : upsert_habit_log st date hid dn memo now =
        { st with habitLogs := st.habitLogs.map (updateLogRow date hid dn memo now) } := by
      unfold upsert_habit_log
      rw [if_pos h]
    constructor
    · rw [e1]
      unfold upsert_habit_log
      rw [if_pos (by
        show (st.habitLogs.map (updateLogRow date hid dn memo now)).any
            (habitLogKey date hid) = true
        rw [any_map_pred _ _ (fun r => habitLogKey_updateLogRow date hid date hid dn memo now r)]
        exact h)]
      congr 1
      rw [List.map_map]
      apply List.map_congr_left
      intro r _
      exact updateLogRow_idem date hid dn memo now r
    · intro d' h'
      rw [e1]
      unfold logKeyCount
      have : (st.habitLogs.map (updateLogRow date hid dn memo now)).countP
          (habitLogKey d' h') = st.habitLogs.countP (habitLogKey d' h') :=
        countP_map_pred _ _ (fun r => habitLogKey_updateLogRow d' h' date hid dn memo now r) _
      rw [this]
      exact le_max_right _ _
  · have e1 : upsert_habit_log st date hid dn memo now =
        { st with habitLogs := st.habitLogs ++ [newLogRow st date hid dn memo now] } := by
      unfold upsert_habit_log
      rw [if_neg h]
    have hanyfalse : st.habitLogs.any (habitLogKey date hid) = false :=
      Bool.eq_false_iff.mpr h
    constructor
    · rw [e1]
      unfold upsert_habit_log
      rw [if_pos (by
        show (st.habitLogs ++ [newLogRow st date hid dn memo now]).any
            (habitLogKey date hid) = true
        rw [List.any_append]
        simp [habitLogKey_newLogRow])]
      congr 1
      rw [List.map_append]
      congr 1
      · apply map_eq_self_of_no_match (updateLogRow date hid dn memo now)
          (habitLogKey date hid)
        · intro a ha
          exact updateLogRow_of_not date hid dn memo now a ha
        · exact hanyfalse
      · simp [updateLogRow_newLogRow]
    · intro d' h'
      rw [e1]
      unfold logKeyCount
      rw [List.countP_append]
      by_cases hk : habitLogKey d' h' (newLogRow st date hid dn memo now) = true
      · have hdh : d' = date ∧ h' = hid := by
          unfold habitLogKey newLogRow at hk
          simp at hk
          exact ⟨hk.1.symm, hk.2.symm⟩
        have hcount0 : st.habitLogs.countP (habitLogKey d' h') = 0 := by
          rw [hdh.1, hdh.2]
          rw [List.countP_eq_zero]
          intro a ha
          exact fun hpa => (Bool.eq_false_iff.mp hanyfalse)
            (List.any_eq_true.mpr ⟨a, ha, hpa⟩)
        rw [hcount0]
        simp [hk]
      · have : List.countP (habitLogKey d' h') [newLogRow st date hid dn memo now] = 0 := by
          simp [List.countP_cons, hk]
        rw [this]
        simp

theorem getLast?_mem {α : Type} : ∀ (l : List α) (a : α), l.getLast? = some a → a ∈ l := by
  intro l
  induction l with
  | nil => intro a h; exact Option.noConfusion h
  | cons x xs ih =>
    intro a h
    cases xs with
    | nil =>
      have h' : some x = some a := h
      rw [← Option.some.inj h']
      exact List.mem_cons_self x []
    | cons y ys =>
      rw [List.getLast?_cons_cons] at h
      exact List.mem_cons_of_mem x (ih a h)

theorem filter_by_date_then_id (date : String) (hid : Int) (l : List HabitLog) :
    (l.filter (fun r => r.date == date)).filter (fun r => r.habitId == hid) =
      l.filter (habitLogKey date hid) := by
  induction l with
  | nil => rfl
  | cons x xs ih =>
    by_cases hx : (x.date == date) = true
    · by_cases hy : (x.habitId == hid) = true
      · simp [List.filter_cons, hx, hy, habitLogKey, ih]
      · simp [List.filter_cons, hx, hy, habitLogKey, ih]
    · simp [List.filter_cons, hx, habitLogKey, ih]

/-- C4: writing a habit log with `upsert_habit_log` and then immediately
reading the logs for that date returns, under that habit id, a record
carrying exactly the `done` and `note` (memo) values just written. -/
theorem upsert_then_fetch_roundtrip :
    ∀ (st : Store) (date : String) (hid is_done : Int) (memo now : String),
      (logsDictGet (fetch_habit_logs_for_date
          (upsert_habit_log st date hid is_done memo now) date) hid).map
        (fun r => (r.isDone, r.memo)) = some (is_done, memo) := by
  intro st date hid dn memo now
  unfold logsDictGet fetch_habit_logs_for_date
  by_cases h : st.habitLogs.any (habitLogKey date hid) = true
  · have e1 : (upsert_habit_log st date hid dn memo now).habitLogs =
        st.habitLogs.map (updateLogRow date hid dn memo now) := by
      unfold upsert_habit_log
      rw [if_pos h]
    rw [e1, filter_by_date_then_id]
    have e2 : (st.habitLogs.map (updateLogRow date hid dn memo now)).filter
        (habitLogKey date hid) =
        (st.habitLogs.filter (habitLogKey date hid)).map (updateLogRow date hid dn memo now) := by
      rw [List.filter_map]
      congr 1
      apply List.filter_congr
      intro r _
      exact habitLogKey_updateLogRow date hid date hid dn memo now r
    rw [e2, List.getLast?_map]
    obtain ⟨a, ha, hpa⟩ := List.any_eq_true.mp h
    have hne : st.habitLogs.filter (habitLogKey date hid) ≠ [] :=
      List.ne_nil_of_mem (List.mem_filter.mpr ⟨ha, hpa⟩)
    obtain ⟨r0, hr0⟩ := Option.isSome_iff_exists.mp (List.getLast?_isSome.mpr hne)
    rw [hr0]
    have hkey : habitLogKey date hid r0 = true :=
      (List.mem_filter.mp (getLast?_mem _ r0 hr0)).2
    show some ((updateLogRow date hid dn memo now r0).isDone,
               (updateLogRow date hid dn memo now r0).memo) = some (dn, memo)
    unfold updateLogRow
    rw [if_pos hkey]
  · have e1 : (upsert_habit_log st date hid dn memo now).habitLogs =
        st.habitLogs ++ [newLogRow st date hid dn memo now] := by
      unfold upsert_habit_log
      rw [if_neg h]
    rw [e1, filter_by_date_then_id, List.filter_append]
    have e2 : List.filter (habitLogKey date hid) [newLogRow st date hid dn memo now] =
        [newLogRow st date hid dn memo now] := by
      simp [List.filter_cons, habitLogKey_newLogRow]
    rw [e2, List.getLast?_concat]
    rfl

theorem updateMoodRow_date_pred (p : MoodPayload) (now : String) (r : MoodLog) :
    ((updateMoodRow p now r).date == p.date) = (r.date == p.date) := by
  unfold updateMoodRow
  by_cases hr : (r.date == p.date) = true
  · rw [if_pos hr]
  · rw [if_neg hr]

/-- C10: overwriting an existing mood log for a date preserves the record's
original `created_at`: the conflict-update path of `upsert_mood_log` takes
every other field from the new payload and sets `updated_at` to `now`, but
leaves `created_at` as stored. -/
theorem upsert_mood_log_preserves_created_at :
    ∀ (st : Store) (p : MoodPayload) (now : String) (old : MoodLog),
      load_mood_log st p.date = some old →
      load_mood_log (upsert_mood_log st p now) p.date =
        some { date := p.date, moodScore := p.moodScore, moodLabel := p.moodLabel,
               keywords := p.keywords, note := p.note, weatherDesc := p.weatherDesc,
               weatherTemp := p.weatherTemp, tarotName := p.tarotName,
               tarotOrientation := p.tarotOrientation, tarotMeaning := p.tarotMeaning,
               aiAnalysis := p.aiAnalysis, aiRecommendation := p.aiRecommendation,
               createdAt := old.createdAt, updatedAt := now } := by
  intro st p now old hold
  unfold load_mood_log at hold
  have hmem : old ∈ st.moodLogs := List.mem_of_find?_eq_some hold
  have hq' := List.find?_some hold
  have hq : (old.date == p.date) = true := hq'
  have hany : st.moodLogs.any (fun r => r.date == p.date) = true :=
    List.any_eq_true.mpr ⟨old, hmem, hq⟩
  have e1 : (upsert_mood_log st p now).moodLogs =
      st.moodLogs.map (updateMoodRow p now) := by
    unfold upsert_mood_log
    rw [if_pos hany]
  unfold load_mood_log
  rw [e1, find?_map_pred (updateMoodRow p now) (fun r => r.date == p.date)
    (updateMoodRow_date_pred p now) st.moodLogs, hold]
  show some (updateMoodRow p now old) = _
  unfold updateMoodRow
  rw [if_pos hq]
  have hdate : old.date = p.date := eq_of_beq hq
  rw [hdate]

theorem upsert_mood_log_preserves_created_at_witness :
    load_mood_log (upsert_mood_log moodStore1 moodPayload1 "t9") "2025-01-01" =
      some { date := "2025-01-01", moodScore := 5, moodLabel := some "good",
             keywords := some "k", note := some "n", weatherDesc := some "sun",
             weatherTemp := none, tarotName := some "The Sun",
             tarotOrientation := some "upright", tarotMeaning := some "m",
             aiAnalysis := some "a", aiRecommendation := some "r",
             createdAt := "t0", updatedAt := "t9" } :=
  upsert_mood_log_preserves_created_at moodStore1 moodPayload1 "t9"
    { date := "2025-01-01", moodScore := 3, moodLabel := none,
      keywords := none, note := none, weatherDesc := none,
      weatherTemp := none, tarotName := none,
      tarotOrientation := none, tarotMeaning := none,
      aiAnalysis := none, aiRecommendation := none,
      createdAt := "t0", updatedAt := "t0" } (by decide)

theorem aiMsgKey_updateMsgRow (d' k' date msgType content now : String)
    (r : AiMessage) :
    aiMsgKey d' k' (updateMsgRow date msgType content now r) = aiMsgKey d' k' r := by
  unfold updateMsgRow
  by_cases hr : aiMsgKey date msgType r = true
  · rw [if_pos hr]; rfl
  · rw [if_neg hr]

theorem aiMsgKey_newMsgRow (st : Store) (date msgType content now : String) :
    aiMsgKey date msgType (newMsgRow st date msgType content now) = true := by
  simp [aiMsgKey, newMsgRow]

theorem save_preserves_msg_inv (st : Store)
    (h : ∀ d k, msgKeyCount st d k ≤ 1) (date msgType content now : String) :
    ∀ d k, msgKeyCount (save_ai_message st date msgType content now) d k ≤ 1 := by
  intro d k
  by_cases hany : st.aiMessages.any (aiMsgKey date msgType) = true
  · have e1 : (save_ai_message st date msgType content now).aiMessages =
        st.aiMessages.map (updateMsgRow date msgType content now) := by
      unfold save_ai_message
      rw [if_pos hany]
    unfold msgKeyCount
    rw [e1, countP_map_pred _ _ (fun r => aiMsgKey_updateMsgRow d k date msgType content now r)]
    exact h d k
  · have e1 : (save_ai_message st date msgType content now).aiMessages =
        st.aiMessages ++ [newMsgRow st date msgType content now] := by
      unfold save_ai_message
      rw [if_neg hany]
    unfold msgKeyCount
    rw [e1, List.countP_append]
    have hanyfalse : st.aiMessages.any (aiMsgKey date msgType) = false :=
      Bool.eq_false_iff.mpr hany
    by_cases hk : aiMsgKey d k (newMsgRow st date msgType content now) = true
    · have hdk : d = date ∧ k = msgType := by
        unfold aiMsgKey newMsgRow at hk
        simp at hk
        exact ⟨hk.1.symm, hk.2.symm⟩
      have hcount0 : st.aiMessages.countP (aiMsgKey d k) = 0 := by
        rw [hdk.1, hdk.2, List.countP_eq_zero]
        intro a ha hpa
        exact (Bool.eq_false_iff.mp hanyfalse) (List.any_eq_true.mpr ⟨a, ha, hpa⟩)
      rw [hcount0]
      simp [hk]
    · have h0 : List.countP (aiMsgKey d k) [newMsgRow st date msgType content now] = 0 := by
        simp [List.countP_cons, hk]
      rw [h0]
      have := h d k
      unfold msgKeyCount at this
      omega

theorem applyOp_msg_inv (st : Store) (op : StoreOp)
    (h : ∀ d k, msgKeyCount st d k ≤ 1) :
    ∀ d k, msgKeyCount (applyOp st op) d k ≤ 1 := by
  cases op with
  | aiMessageWrite date msgType content now =>
    exact save_preserves_msg_inv st h date msgType content now
  | habitLogWrite date hid dn m now =>
    intro d k
    have e : (upsert_habit_log st date hid dn m now).aiMessages = st.aiMessages := by
      unfold upsert_habit_log
      split_ifs <;> rfl
    show msgKeyCount (upsert_habit_log st date hid dn m now) d k ≤ 1
    unfold msgKeyCount
    rw [e]
    exact h d k
  | moodLogWrite p now =>
    intro d k
    have e : (upsert_mood_log st p now).aiMessages = st.aiMessages := by
      unfold upsert_mood_log
      split_ifs <;> rfl
    show msgKeyCount (upsert_mood_log st p now) d k ≤ 1
    unfold msgKeyCount
    rw [e]
    exact h d k
  | habitAdd n c tv tu now =>
    intro d k
    have e : (add_habit st n c tv tu now).aiMessages = st.aiMessages := rfl
    show msgKeyCount (add_habit st n c tv tu now) d k ≤ 1
    unfold msgKeyCount
    rw [e]
    exact h d k
  | habitSetActive hid a =>
    intro d k
    have e : (set_habit_active st hid a).aiMessages = st.aiMessages := rfl
    show msgKeyCount (set_habit_active st hid a) d k ≤ 1
    unfold msgKeyCount
    rw [e]
    exact h d k
  | habitUpdate hid n c tv tu =>
    intro d k
    have e : (update_habit st hid n c tv tu).aiMessages = st.aiMessages := rfl
    show msgKeyCount (update_habit st hid n c tv tu) d k ≤ 1
    unfold msgKeyCount
    rw [e]
    exact h d k
  | habitSeed now =>
    intro d k
    have e : (seed_habits_if_empty st now).aiMessages = st.aiMessages := by
      unfold seed_habits_if_empty
      split_ifs <;> rfl
    show msgKeyCount (seed_habits_if_empty st now) d k ≤ 1
    unfold msgKeyCount
    rw [e]
    exact h d k

theorem foldl_msg_inv :
    ∀ (ops : List StoreOp) (st : Store), (∀ d k, msgKeyCount st d k ≤ 1) →
      ∀ d k, msgKeyCount (List.foldl applyOp st ops) d k ≤ 1 := by
  intro ops
  induction ops with
  | nil => intro st h; exact h
  | cons op ops ih =>
    intro st h
    rw [List.foldl_cons]
    exact ih (applyOp st op) (applyOp_msg_inv st op h)

/-- C6: in every reachable store state (`init_db` followed by any sequence of
the app's writes) the digest cache `ai_messages` holds at most one row per
`(date, kind)` key, and saving a digest for an existing key overwrites the
stored content rather than adding a second record. -/
theorem ai_digest_unique_per_key :
    (∀ (ops : List StoreOp) (d k : String), msgKeyCount (applyOps ops) d k ≤ 1) ∧
    (∀ (st : Store) (date msgType content now : String),
      1 ≤ msgKeyCount st date msgType →
      ((save_ai_message st date msgType content now).aiMessages.length =
          st.aiMessages.length ∧
        load_ai_message (save_ai_message st date msgType content now) date msgType =
          some content)) := by
  constructor
  · intro ops d k
    unfold applyOps
    apply foldl_msg_inv ops initStore
    intro d' k'
    exact Nat.zero_le 1
  · intro st date msgType content now hpos
    have hex : ∃ a ∈ st.aiMessages, aiMsgKey date msgType a = true := by
      unfold msgKeyCount at hpos
      exact List.countP_pos_iff.mp (by omega)
    have hany : st.aiMessages.any (aiMsgKey date msgType) = true :=
      List.any_eq_true.mpr hex
    have e1 : (save_ai_message st date msgType content now).aiMessages =
        st.aiMessages.map (updateMsgRow date msgType content now) := by
      unfold save_ai_message
      rw [if_pos hany]
    constructor
    · rw [e1, List.length_map]
    · unfold load_ai_message
      rw [e1, find?_map_pred _ _
        (fun r => aiMsgKey_updateMsgRow date msgType date msgType content now r)]
      cases hf : st.aiMessages.find? (aiMsgKey date msgType) with
      | none =>
        obtain ⟨a, ha, hpa⟩ := hex
        rw [List.find?_eq_none] at hf
        exact absurd hpa (by simp [hf a ha])
      | some r =>
        have hkey := List.find?_some hf
        show some (updateMsgRow date msgType content now r).content = some content
        unfold updateMsgRow
        rw [if_pos hkey]

theorem ai_digest_unique_per_key_witness :
    msgKeyCount (applyOps [StoreOp.aiMessageWrite "2025-01-01" "quote" "hello" "t1"])
        "2025-01-01" "quote" ≤ 1 ∧
    load_ai_message (save_ai_message msgStore1 "2025-01-01" "quote" "new" "t2")
        "2025-01-01" "quote" = some "new" :=
  ⟨ai_digest_unique_per_key.1
      [StoreOp.aiMessageWrite "2025-01-01" "quote" "hello" "t1"] "2025-01-01" "quote",
   (ai_digest_unique_per_key.2 msgStore1 "2025-01-01" "quote" "new" "t2" (by decide)).2⟩

theorem filter_key_len_le_one (l : List HabitLog) (date : String) (hid : Int)
    (h : l.Pairwise (fun a b => ¬(a.date = b.date ∧ a.habitId = b.habitId))) :
    (l.filter (habitLogKey date hid)).length ≤ 1 := by
  induction l with
  | nil => simp
  | cons x xs ih =>
    rw [List.pairwise_cons] at h
    by_cases hx : habitLogKey date hid x = true
    · rw [List.filter_cons, if_pos hx]
      have hnil : xs.filter (habitLogKey date hid) = [] := by
        rw [List.filter_eq_nil_iff]
        intro b hb hpb
        unfold habitLogKey at hx hpb
        simp at hx hpb
        exact h.1 b hb ⟨by rw [hx.1, hpb.1], by rw [hx.2, hpb.2]⟩
      rw [hnil]
      simp
    · rw [List.filter_cons, if_neg hx]
      exact ih h.2

theorem dictDone_eq_hasDoneLog (st : Store) (date : String) (hid : Int)
    (h : LogKeysUnique st) :
    dictDone (fetch_habit_logs_for_date st date) hid = hasDoneLog st date hid := by
  unfold dictDone logsDictGet fetch_habit_logs_for_date hasDoneLog
  rw [filter_by_date_then_id]
  have hfun : (fun (r : HabitLog) => r.date == date && r.habitId == hid && r.isDone == 1) =
      (fun (r : HabitLog) => habitLogKey date hid r && r.isDone == 1) := by
    funext r
    unfold habitLogKey
    rw [Bool.and_assoc]
  rw [hfun, ← List.any_filter]
  have hle := filter_key_len_le_one st.habitLogs date hid h
  cases hfl : st.habitLogs.filter (habitLogKey date hid) with
  | nil => rfl
  | cons r rest =>
    rw [hfl] at hle
    simp only [List.length_cons] at hle
    have hrest : rest = [] := List.length_eq_zero.mp (by omega)
    rw [hrest]
    simp

/-- C1: for every store (under the `UNIQUE(date, habit_id)` constraint the
database maintains) and every date, `habit_completion_rate` returns
`done` = the number of active habits whose log for that date exists and is
marked done (an absent log counting as not done), `total` = the number of
active habits, and `rate` = `pct done total` (Python's `round` of the
binary64 value of `done/total*100` for positive totals, 0 for `total = 0`);
in the spec
scenario of two active habits with exactly one done it returns
`(done, total, rate) = (1, 2, 50)`. -/
theorem habit_completion_rate_spec :
    (∀ (st : Store) (date : String), LogKeysUnique st →
      habit_completion_rate st date =
        (((fetch_active_habits st).countP (fun h => hasDoneLog st date h.habitId) : Int),
         ((fetch_active_habits st).length : Int),
         pct ((fetch_active_habits st).countP (fun h => hasDoneLog st date h.habitId) : Int)
           ((fetch_active_habits st).length : Int))) ∧
    habit_completion_rate scenarioStore "2025-03-01" = (1, 2, 50) := by
  constructor
  · intro st date hu
    rw [habit_completion_rate_eq]
    have hfun : (fun h : Habit => dictDone (fetch_habit_logs_for_date st date) h.habitId) =
        (fun h : Habit => hasDoneLog st date h.habitId) := by
      funext h
      exact dictDone_eq_hasDoneLog st date h.habitId hu
    rw [hfun]
  · decide

theorem habit_completion_rate_spec_witness :
    habit_completion_rate scenarioStore "2025-03-01" =
      (((fetch_active_habits scenarioStore).countP
          (fun h => hasDoneLog scenarioStore "2025-03-01" h.habitId) : Int),
       ((fetch_active_habits scenarioStore).length : Int),
       pct ((fetch_active_habits scenarioStore).countP
          (fun h => hasDoneLog scenarioStore "2025-03-01" h.habitId) : Int)
         ((fetch_active_habits scenarioStore).length : Int)) :=
  habit_completion_rate_spec.1 scenarioStore "2025-03-01" (by
    unfold LogKeysUnique scenarioStore
    simp only [List.pairwise_cons, List.mem_singleton, List.not_mem_nil]
    refine ⟨?_, ?_, ?_⟩
    · intro b hb
      rw [hb]
      decide
    · intro b hb
      exact absurd hb (by simp)
    · exact List.Pairwise.nil)

/-- C7 counterexample: the claim says the range query returns the stored
records joined with habit metadata within the bounds.  In `rangeStore` one
habit-log record (joined with its habit) lies inside the inclusive bounds,
yet `fetch_range_table` — which reads only `mood_logs` — returns nothing. -/
theorem fetch_range_table_misses_habit_logs :
    (getLogsInRange_specModel rangeStore "2025-03-01" "2025-03-03").length = 1 ∧
    fetch_range_table rangeStore "2025-03-01" "2025-03-03" = [] := by
  constructor
  · decide
  · decide

/-- C7 (amended): `fetch_range_table` returns exactly the stored mood-log
records (projected to the selected columns) whose dates lie between the
bounds inclusively, ordered by date descending; no habit join occurs. -/
theorem fetch_range_table_moodlog_spec :
    ∀ (st : Store) (s e : String),
      (∀ row : RangeRow,
        row ∈ fetch_range_table st s e ↔
          ∃ m : MoodLog, m ∈ st.moodLogs ∧ strLe s m.date = true ∧
            strLe m.date e = true ∧ row = projectRangeRow m) ∧
      List.Pairwise (fun a b : RangeRow => strLe b.date a.date = true)
        (fetch_range_table st s e) := by
  intro st s e
  constructor
  · intro row
    unfold fetch_range_table
    rw [List.mem_map]
    constructor
    · rintro ⟨m, hm, hproj⟩
      rw [mem_sortOrd, List.mem_filter] at hm
      obtain ⟨hmem, hcond⟩ := hm
      rw [Bool.and_eq_true] at hcond
      exact ⟨m, hmem, hcond.1, hcond.2, hproj.symm⟩
    · rintro ⟨m, hmem, h1, h2, hrow⟩
      refine ⟨m, ?_, hrow.symm⟩
      rw [mem_sortOrd, List.mem_filter]
      refine ⟨hmem, ?_⟩
      rw [h1, h2]
      rfl
  · unfold fetch_range_table
    rw [List.pairwise_map]
    exact pairwise_sortOrd (fun a b : MoodLog => strLe b.date a.date)
      (fun a b hab => strLe_total b.date a.date hab)
      (fun a b c h1 h2 => strLe_trans c.date b.date a.date h2 h1)
      (st.moodLogs.filter (fun m => strLe s m.date && strLe m.date e))
